import Mathlib

/-!
Shallow embedding of the claude-monitor sampling engine
(src/internal/monitor/process.go, the history ring buffer, and
src/internal/api/handlers.go RecordHistory), together with proofs of the
spec claims about it.

Modelling conventions:
* Go uint64 arithmetic is modelled on Nat with explicit reduction mod 2^64
  (defs u64sub, u64add); int64 values are Int.
* Go float64 values are modelled as exact rationals.  Every numeric fact
  proved below is about quantities (small integer tick counts divided by
  100 and by the elapsed seconds) whose float64 computation in the source
  is exact, so the rational model agrees with the float code on them.
  Concrete divisions of integers appearing inside the parsing helpers are
  written mkRat n d, which is the same rational as (n : Rat) / (d : Rat).
* The filesystem reads (os.ReadDir, os.ReadFile, os.Readlink) are threaded
  through an explicit environment ProcWorld: each field holds the result
  the corresponding read would return (none = the read fails).  String
  contents are parsed by Lean translations of the Go parsing code.
  String indices are character indices; all contents considered here are
  ASCII, where this coincides with Go byte indices.
* A Go runtime panic (reachable in getCPUTime, see below) is modelled by
  the value none of an Option-typed result, and is propagated to the
  callers GetProcesses and RecordHistory.
* Go sort.Slice runs insertion sort on slices of fewer than 13 elements;
  goSortSlice is that insertion sort (left-to-right insertion into a
  sorted prefix with the source comparator).  Every concrete input used
  below is inside that regime; the order-theoretic facts proved about it
  (sortedness and permutation) hold for the full pdqsort as well.
-/

namespace ClaudeMonitor

/-! ## Go primitive arithmetic -/

/-- The uint64 modulus 2^64. -/
def U64 : Nat := 2 ^ 64

/-- Go uint64 subtraction a - b (wraparound). -/
def u64sub (a b : Nat) : Nat := (a + (U64 - b % U64)) % U64

/-- Go uint64 addition a + b (wraparound). -/
def u64add (a b : Nat) : Nat := (a + b) % U64

/-- Truncation of a rational toward zero, the behaviour of Go int64(float64). -/
def truncRat (q : ℚ) : Int := Int.tdiv q.num (q.den : Int)

/-! ## Go string helpers -/

/-- Whitespace recognised by Go strings.Fields / strings.TrimSpace
(space, tab, newline, carriage return, vertical tab, form feed). -/
def goIsSpace (c : Char) : Bool :=
  c = ' ' || c = '\t' || c = '\n' || c = '\r' || c = Char.ofNat 11 || c = Char.ofNat 12

/-- Splits a character list into maximal runs of non-whitespace,
accumulating the current field in reverse. -/
def fieldsAux : List Char → List Char → List (List Char)
  | [], acc => if acc.isEmpty then [] else [acc.reverse]
  | c :: cs, acc =>
    if goIsSpace c then
      if acc.isEmpty then fieldsAux cs [] else acc.reverse :: fieldsAux cs []
    else fieldsAux cs (c :: acc)

/-- Go strings.Fields: whitespace-separated fields of a string. -/
def goFields (s : String) : List String :=
  (fieldsAux s.toList []).map (fun l => String.mk l)

/-- Go strings.TrimSpace. -/
def goTrimSpace (s : String) : String :=
  String.mk (((s.toList.dropWhile goIsSpace).reverse.dropWhile goIsSpace).reverse)

/-- Numeric value of a list of decimal digit characters. -/
def digitsVal (l : List Char) : Nat :=
  l.foldl (fun a c => a * 10 + (c.toNat - 48)) 0

/-- Go strconv.ParseUint(s, 10, 64) with the error CHECKED by the caller:
none on a syntax error (empty or non-digit input) or on overflow. -/
def parseUintChecked (s : String) : Option Nat :=
  let cs := s.toList
  if cs ≠ [] ∧ cs.all Char.isDigit then
    let v := digitsVal cs
    if v < U64 then some v else none
  else none

/-- Go strconv.ParseUint(s, 10, 64) with the error IGNORED by the caller:
the returned value is 0 on a syntax error and 2^64 - 1 on overflow. -/
def parseUintLoose (s : String) : Nat :=
  let cs := s.toList
  if cs ≠ [] ∧ cs.all Char.isDigit then
    let v := digitsVal cs
    if v < U64 then v else U64 - 1
  else 0

/-- Go strconv.Atoi: optional sign, decimal digits, int64 range check;
none on any error (the caller skips the directory entry then). -/
def goAtoi (s : String) : Option Int :=
  let cs := s.toList
  let signDigits : Bool × List Char :=
    match cs with
    | '+' :: r => (false, r)
    | '-' :: r => (true, r)
    | r => (false, r)
  let neg := signDigits.1
  let ds := signDigits.2
  if ds ≠ [] ∧ ds.all Char.isDigit then
    let v : Int := (digitsVal ds : Int)
    let v := if neg then -v else v
    if -(2 ^ 63) ≤ v ∧ v < 2 ^ 63 then some v else none
  else none

/-- Go strconv.ParseFloat(s, 64) with the error ignored (0 on a syntax
error), for the plain decimal grammar sign digits [. digits] actually fed
to it here (/proc/uptime first field); exponent, hex and inf/nan forms of
the full Go grammar are not modelled, no theorem below depends on them. -/
def goParseFloatLoose (s : String) : ℚ :=
  let cs := s.toList
  let signRest : Bool × List Char :=
    match cs with
    | '+' :: r => (false, r)
    | '-' :: r => (true, r)
    | r => (false, r)
  let neg := signRest.1
  let r := signRest.2
  let intPart := r.takeWhile (fun c => c ≠ '.')
  let rest := r.dropWhile (fun c => c ≠ '.')
  match rest with
  | [] =>
    if intPart ≠ [] ∧ intPart.all Char.isDigit then
      let n : Int := (digitsVal intPart : Int)
      mkRat (if neg then -n else n) 1
    else 0
  | _ :: frac =>
    if (intPart ≠ [] ∨ frac ≠ []) ∧ intPart.all Char.isDigit ∧ frac.all Char.isDigit then
      let n : Int := ((digitsVal intPart * 10 ^ frac.length + digitsVal frac : Nat) : Int)
      mkRat (if neg then -n else n) (10 ^ frac.length)
    else 0

/-- Go path/filepath.Base. -/
def goBase (s : String) : String :=
  if s = "" then "."
  else
    let cs := s.toList.reverse.dropWhile (fun c => c = '/')
    if cs = [] then "/" else String.mk (cs.takeWhile (fun c => c ≠ '/')).reverse

/-- Go strings.LastIndex(content, ")"): index of the last closing
parenthesis, none when absent. -/
def lastIndexParen (cs : List Char) : Option Nat :=
  match cs.reverse.findIdx? (fun c => c = ')') with
  | none => none
  | some k => some (cs.length - 1 - k)

/-! ## Data model (process.go) -/

/-- The cpuTime struct: accumulated user and system CPU time of one
process, in uint64 clock ticks. -/
structure cpuTime where
  utime : Nat
  stime : Nat
deriving DecidableEq

/-- The ClaudeProcess struct. -/
structure ClaudeProcess where
  PID : Int
  Name : String
  WorkingDir : String
  CPUPercent : ℚ
  MemoryMB : ℚ
  StartTime : Int
deriving DecidableEq

/-- One entry of os.ReadDir("/proc").  os.ReadDir returns entries sorted
lexically by name. -/
structure DirEntry where
  name : String
  isDir : Bool
deriving DecidableEq

/-- The filesystem environment of one poll: the outcome every OS read
performed during the poll would have.  none models a failing read. -/
structure ProcWorld where
  procDir : Option (List DirEntry)
  comm : Int → Option String
  cwdLink : Int → Option String
  statm : Int → Option String
  stat : Int → Option String
  uptime : Option String
  pageSize : Nat
  nowUnix : Int

/-- The mutable ProcessMonitor state: the previous poll's per-pid counter
pairs (a Go map, modelled as an association list with unique keys kept by
insertion-overwrite) and the clock-tick rate.  The prevSample timestamp is
modelled by passing the elapsed wall-clock gap to GetProcesses directly. -/
structure PMState where
  prevCPUTimes : List (Int × cpuTime)
  clkTck : ℚ
deriving DecidableEq

/-- NewProcessMonitor: empty counter map, 100 ticks per second. -/
def NewProcessMonitor : PMState := ⟨[], 100⟩

/-- Lookup in the pid -> cpuTime map. -/
def lookupA : List (Int × cpuTime) → Int → Option cpuTime
  | [], _ => none
  | (k, v) :: r, p => if k = p then some v else lookupA r p

/-- Insertion (overwrite on an existing key) in the pid -> cpuTime map. -/
def insertA : List (Int × cpuTime) → Int → cpuTime → List (Int × cpuTime)
  | [], k, v => [(k, v)]
  | (k', v') :: r, k, v => if k' = k then (k, v) :: r else (k', v') :: insertA r k v

/-- Lookup in the name -> count map. -/
def lookupS : List (String × Nat) → String → Option Nat
  | [], _ => none
  | (k, v) :: r, p => if k = p then some v else lookupS r p

/-- Insertion (overwrite on an existing key) in the name -> count map. -/
def insertS : List (String × Nat) → String → Nat → List (String × Nat)
  | [], k, v => [(k, v)]
  | (k', v') :: r, k, v => if k' = k then (k, v) :: r else (k', v') :: insertS r k v

/-! ## Snapshot reader (process.go helper functions) -/

/-- isClaude: reads /proc/pid/comm and compares its trimmed content with
the literal claude; false on a read failure. -/
def isClaude (w : ProcWorld) (pid : Int) : Bool :=
  match w.comm pid with
  | none => false
  | some data => goTrimSpace data = "claude"

/-- getMemoryMB: parses the second field of /proc/pid/statm as the
resident set size in pages and converts to megabytes; 0 on any failure.
The rss * pageSize product is a uint64 multiplication. -/
def getMemoryMB (w : ProcWorld) (pid : Int) : ℚ :=
  match w.statm pid with
  | none => 0
  | some data =>
    let fields := goFields data
    if fields.length < 2 then 0
    else
      match parseUintChecked (fields.getD 1 "") with
      | none => 0
      | some rss => mkRat (((rss * w.pageSize) % U64 : Nat) : Int) (1024 * 1024)

/-- getCPUTime: parses fields 11 and 12 after the last closing parenthesis
of /proc/pid/stat as utime and stime.  The source guards
len(fields) < 12 and then reads fields[12]; with exactly 12 fields that
read is out of range and panics, modelled here by none. -/
def getCPUTime (w : ProcWorld) (pid : Int) : Option cpuTime :=
  match w.stat pid with
  | none => some ⟨0, 0⟩
  | some content =>
    let cs := content.toList
    match lastIndexParen cs with
    | none => some ⟨0, 0⟩
    | some idx =>
      if cs.length ≤ idx + 2 then some ⟨0, 0⟩
      else
        let fields := (fieldsAux (cs.drop (idx + 2)) []).map (fun l => String.mk l)
        if fields.length < 12 then some ⟨0, 0⟩
        else
          if 13 ≤ fields.length then
            some ⟨parseUintLoose (fields.getD 11 ""), parseUintLoose (fields.getD 12 "")⟩
          else none

/-- getStartTime: parses field 19 after the last closing parenthesis of
/proc/pid/stat as the start tick count, converts it to epoch seconds via
the boot time derived from /proc/uptime; 0 on any failure. -/
def getStartTime (w : ProcWorld) (pid : Int) : Int :=
  match w.stat pid with
  | none => 0
  | some content =>
    let cs := content.toList
    match lastIndexParen cs with
    | none => 0
    | some idx =>
      if cs.length ≤ idx + 2 then 0
      else
        let fields := (fieldsAux (cs.drop (idx + 2)) []).map (fun l => String.mk l)
        if fields.length < 20 then 0
        else
          let starttime := parseUintLoose (fields.getD 19 "")
          match w.uptime with
          | none => 0
          | some up =>
            let ufields := goFields up
            if ufields.length < 1 then 0
            else
              let uptime := goParseFloatLoose (ufields.getD 0 "")
              let bootTime := w.nowUnix - truncRat uptime
              let startSeconds : ℚ := mkRat (starttime : Int) 100
              bootTime + truncRat startSeconds

/-! ## GetProcesses -/

/-- One element of the rawProcesses list of the first pass: the partially
built record together with its current counter pair. -/
structure RawProcess where
  proc : ClaudeProcess
  ct : cpuTime
deriving DecidableEq

/-- The per-candidate record construction of the first pass: working
directory (display name claude when unreadable), memory, start time. -/
def buildProc (w : ProcWorld) (pid : Int) : ClaudeProcess :=
  let wdName : String × String :=
    match w.cwdLink pid with
    | some cwd => (cwd, goBase cwd)
    | none => ("", "claude")
  { PID := pid, Name := wdName.2, WorkingDir := wdName.1, CPUPercent := 0,
    MemoryMB := getMemoryMB w pid, StartTime := getStartTime w pid }

/-- The first pass of GetProcesses: walk the directory entries, keep the
numeric directories whose comm is claude, collect raw records in order and
record the current counter pair of every observed pid.  none models the
poll crashing on a getCPUTime panic. -/
def firstPassAux (w : ProcWorld) :
    List DirEntry → List RawProcess → List (Int × cpuTime) →
    Option (List RawProcess × List (Int × cpuTime))
  | [], raw, cur => some (raw, cur)
  | e :: rest, raw, cur =>
    if !e.isDir then firstPassAux w rest raw cur
    else
      match goAtoi e.name with
      | none => firstPassAux w rest raw cur
      | some pid =>
        if !isClaude w pid then firstPassAux w rest raw cur
        else
          match getCPUTime w pid with
          | none => none
          | some ct => firstPassAux w rest (raw ++ [⟨buildProc w pid, ct⟩]) (insertA cur pid ct)

/-- The sort.Slice comparator: ascending start time, nothing else. -/
def lessStart (a b : RawProcess) : Bool :=
  decide (a.proc.StartTime < b.proc.StartTime)

/-- Insertion of a new element into a sorted prefix, scanning from the
front: the element lands before the first entry it compares less-than,
i.e. after every entry it does not compare less-than, exactly where the
swap loop of Go insertion sort leaves it. -/
def goOrderedInsert {α : Type} (less : α → α → Bool) (a : α) : List α → List α
  | [] => [a]
  | b :: l => if less a b then a :: b :: l else b :: goOrderedInsert less a l

/-- Go sort.Slice on a short slice: left-to-right insertion sort with the
given comparator. -/
def goSortSlice {α : Type} (less : α → α → Bool) (l : List α) : List α :=
  l.foldl (fun acc a => goOrderedInsert less a acc) []

/-- The CPU-percentage computation of the second pass: 0 without a
previous counter pair, otherwise the uint64 tick delta divided by the
tick rate and the elapsed seconds, times 100, clamped below at 0 and
above at 100 (in that order, as in the source). -/
def calcCPUPercent (prevOpt : Option cpuTime) (ct : cpuTime) (clkTck elapsed : ℚ) : ℚ :=
  match prevOpt with
  | none => 0
  | some prev =>
    let totalDelta : ℚ := (u64add (u64sub ct.utime prev.utime) (u64sub ct.stime prev.stime) : Nat)
    let p := totalDelta / clkTck / elapsed * 100
    let p := if p < 0 then 0 else p
    if p > 100 then 100 else p

/-- getOrdinalSuffix from the source: 2nd, 3rd, and Nth for every other N. -/
def getOrdinalSuffix (n : Nat) : String :=
  match n with
  | 2 => "2nd"
  | 3 => "3rd"
  | _ => toString n ++ "th"

/-- The duplicate-name handling of the second pass: bump the per-base-name
counter and append the ordinal suffix from the second occurrence on. -/
def assignName (nc : List (String × Nat)) (baseName : String) : String × List (String × Nat) :=
  let n := (lookupS nc baseName).getD 0 + 1
  let nc' := insertS nc baseName n
  if n > 1 then (baseName ++ " (" ++ getOrdinalSuffix n ++ ")", nc') else (baseName, nc')

/-- The second pass of GetProcesses: walk the sorted raw list, compute the
CPU percentage against the previous poll's counters and disambiguate the
display names. -/
def secondPassAux (prev : List (Int × cpuTime)) (clkTck elapsed : ℚ) :
    List RawProcess → List (String × Nat) → List ClaudeProcess
  | [], _ => []
  | rp :: rest, nc =>
    let cpu := calcCPUPercent (lookupA prev rp.proc.PID) rp.ct clkTck elapsed
    let nmNc := assignName nc rp.proc.Name
    { rp.proc with CPUPercent := cpu, Name := nmNc.1 } :: secondPassAux prev clkTck elapsed rest nmNc.2

/-- GetProcesses.  Input: the filesystem environment, the elapsed
wall-clock seconds since the previous poll (now - pm.prevSample), and the
monitor state.  Output: some (.error _) when reading /proc itself fails,
none when the poll panics inside getCPUTime, and otherwise the process
list together with the replaced monitor state.  The final cleanup loop of
the source iterates over the just-assigned map and deletes the pids absent
from currentCPUTimes, which removes nothing; it is kept as the filter. -/
def GetProcesses (w : ProcWorld) (elapsedRaw : ℚ) (pm : PMState) :
    Option (Except String (List ClaudeProcess × PMState)) :=
  match w.procDir with
  | none => some (.error "failed to read /proc")
  | some entries =>
    let elapsed := if elapsedRaw < 1 / 10 then 1 / 10 else elapsedRaw
    match firstPassAux w entries [] [] with
    | none => none
    | some rawCur =>
      let sorted := goSortSlice lessStart rawCur.1
      let procs := secondPassAux pm.prevCPUTimes pm.clkTck elapsed sorted []
      let newPrev := rawCur.2.filter (fun p => (lookupA rawCur.2 p.1).isSome)
      some (.ok (procs, { prevCPUTimes := newPrev, clkTck := pm.clkTck }))

/-! ## History ring buffer (history buffer source file) -/

/-- The ProcessSnapshot struct. -/
structure ProcessSnapshot where
  PID : Int
  Name : String
  CPUPercent : ℚ
  MemoryMB : ℚ
deriving DecidableEq

/-- The HistoryPoint struct. -/
structure HistoryPoint where
  Timestamp : Int
  Temperature : ℚ
  Processes : List ProcessSnapshot
deriving DecidableEq

instance : Inhabited HistoryPoint := ⟨⟨0, 0, []⟩⟩

/-- MaxSamples = 30 minutes / 5 seconds = 360. -/
def MaxSamples : Nat := 360

/-- The HistoryBuffer struct: fixed backing storage, write cursor,
occupancy count. -/
structure HistoryBuffer where
  data : List HistoryPoint
  head : Nat
  count : Nat
deriving DecidableEq

/-- NewHistoryBuffer: zeroed backing storage of MaxSamples slots. -/
def NewHistoryBuffer : HistoryBuffer :=
  ⟨List.replicate MaxSamples default, 0, 0⟩

/-- Add: write at the cursor, advance it circularly, saturate the count. -/
def HistoryBuffer.Add (hb : HistoryBuffer) (point : HistoryPoint) : HistoryBuffer :=
  { data := hb.data.set hb.head point
    head := (hb.head + 1) % MaxSamples
    count := if hb.count < MaxSamples then hb.count + 1 else hb.count }

/-- GetAll: chronological read-out; the stored prefix while filling, the
splice tail-from-cursor then head-to-cursor once full. -/
def HistoryBuffer.GetAll (hb : HistoryBuffer) : List HistoryPoint :=
  if hb.count = 0 then []
  else if hb.count < MaxSamples then hb.data.take hb.count
  else hb.data.drop hb.head ++ hb.data.take hb.head

/-- GetLast: the n most recent points, all of them when fewer are held.
The Go parameter is an int; the callers pass nonnegative values, modelled
as Nat. -/
def HistoryBuffer.GetLast (hb : HistoryBuffer) (n : Nat) : List HistoryPoint :=
  let all := hb.GetAll
  if all.length ≤ n then all else all.drop (all.length - n)

/-- Clear: reset cursor and count, keep the storage. -/
def HistoryBuffer.Clear (hb : HistoryBuffer) : HistoryBuffer :=
  { hb with count := 0, head := 0 }

/-- Count accessor. -/
def HistoryBuffer.Count (hb : HistoryBuffer) : Nat := hb.count

/-- Folding Add over a list of points, oldest first. -/
def addAll (hb : HistoryBuffer) (l : List HistoryPoint) : HistoryBuffer :=
  l.foldl HistoryBuffer.Add hb

/-! ## RecordHistory (handlers.go) -/

/-- Projection of a ClaudeProcess to the compact history snapshot. -/
def toSnapshot (p : ClaudeProcess) : ProcessSnapshot :=
  ⟨p.PID, p.Name, p.CPUPercent, p.MemoryMB⟩

/-- RecordHistory: poll, and append one HistoryPoint on success; on a
GetProcesses error return with every piece of state untouched.  The
temperature and timestamp are the external inputs of the call. -/
def RecordHistory (w : ProcWorld) (elapsedRaw : ℚ) (temp : ℚ) (ts : Int)
    (pm : PMState) (hb : HistoryBuffer) : Option (PMState × HistoryBuffer) :=
  match GetProcesses w elapsedRaw pm with
  | none => none
  | some (.error _) => some (pm, hb)
  | some (.ok r) => some (r.2, hb.Add ⟨ts, temp, r.1.map toSnapshot⟩)

/-! ## Observation helpers for the theorems -/

/-- Whether a GetProcesses result is a successful poll. -/
def isOk (r : Option (Except String (List ClaudeProcess × PMState))) : Bool :=
  match r with
  | some (.ok _) => true
  | _ => false

/-- The process list and new state of a successful poll (a default on the
error and panic branches, never consulted there by the theorems). -/
def resultOf (w : ProcWorld) (e : ℚ) (pm : PMState) : List ClaudeProcess × PMState :=
  match GetProcesses w e pm with
  | some (.ok r) => r
  | _ => ([], NewProcessMonitor)

/-- The process ids the poll observes: numeric directory entries whose
comm reads as claude. -/
def observedPids (w : ProcWorld) (entries : List DirEntry) : List Int :=
  entries.filterMap (fun e =>
    if e.isDir then
      (goAtoi e.name).bind (fun pid => if isClaude w pid then some pid else none)
    else none)

/-- The CPU percentages a successful poll is specified to report, one per
raw candidate in sorted order: the estimator formula applied to the
candidate's own counter pair, the prior pair stored under its pid, the
tick rate, and the elapsed gap floored at 0.1 s. -/
def expectedCPUList (w : ProcWorld) (e : ℚ) (pm : PMState) : List ℚ :=
  match w.procDir with
  | none => []
  | some entries =>
    match firstPassAux w entries [] [] with
    | none => []
    | some rawCur =>
      (goSortSlice lessStart rawCur.1).map (fun rp =>
        calcCPUPercent (lookupA pm.prevCPUTimes rp.proc.PID) rp.ct pm.clkTck
          (if e < 1 / 10 then 1 / 10 else e))

/-- The (pid, start time) pairs of the raw candidate list of a poll, in
discovery order. -/
def rawPairs (w : ProcWorld) (entries : List DirEntry) : List (Int × Int) :=
  match firstPassAux w entries [] [] with
  | none => []
  | some rawCur => rawCur.1.map (fun rp => (rp.proc.PID, rp.proc.StartTime))

/-- Number of occurrences of a string in a list. -/
def countIn (bs : List String) (b : String) : Nat :=
  (bs.filter (fun x => decide (x = b))).length

/-- Modelled from the spec: the disambiguation walk on the base-name
sequence alone, used to compare the naming pass of the source against the
claimed first-keeps-name / Nth-gets-ordinal behaviour. -/
def assignNamesSpec (nc : List (String × Nat)) : List String → List String
  | [] => []
  | b :: rest =>
    let n := (lookupS nc b).getD 0 + 1
    (if n > 1 then b ++ " (" ++ getOrdinalSuffix n ++ ")" else b) ::
      assignNamesSpec (insertS nc b n) rest

/-- The reachable-state invariant of the ring buffer: full-size storage,
count at most capacity, cursor in range, and cursor = count while the
buffer is still filling. -/
def InvHB (hb : HistoryBuffer) : Prop :=
  hb.data.length = MaxSamples ∧ hb.count ≤ MaxSamples ∧ hb.head < MaxSamples ∧
    (hb.count < MaxSamples → hb.head = hb.count)

instance (hb : HistoryBuffer) : Decidable (InvHB hb) := by
  unfold InvHB
  infer_instance

/-! ## Concrete poll environments for the witnesses and counterexamples -/

/-- A well-formed /proc/pid/stat content: 20 fields after the comm field,
with the given utime (field 11), stime (field 12) and start tick count
(field 19). -/
def statContent (ut st ticks : Nat) : String :=
  "1 (claude) R 0 0 0 0 0 0 0 0 0 0 " ++ toString ut ++ " " ++ toString st ++
    " 0 0 0 0 0 0 " ++ toString ticks

/-- A world with three claude processes, working directories /a/proj,
/b/proj, /c/other, start ticks 100 / 200 / 300 (epoch start times 1001,
1002, 1003). -/
def wNameA : ProcWorld where
  procDir := some [⟨"1", true⟩, ⟨"2", true⟩, ⟨"3", true⟩]
  comm := fun pid => if pid = 1 ∨ pid = 2 ∨ pid = 3 then some "claude\n" else none
  cwdLink := fun pid =>
    if pid = 1 then some "/a/proj"
    else if pid = 2 then some "/b/proj"
    else if pid = 3 then some "/c/other" else none
  statm := fun _ => none
  stat := fun pid =>
    if pid = 1 then some (statContent 0 0 100)
    else if pid = 2 then some (statContent 0 0 200)
    else if pid = 3 then some (statContent 0 0 300) else none
  uptime := some "1000.5 2000.0"
  pageSize := 4096
  nowUnix := 2000

/-- A world with four claude processes all named proj, start ticks
ascending with the pid. -/
def wNameB : ProcWorld where
  procDir := some [⟨"1", true⟩, ⟨"2", true⟩, ⟨"3", true⟩, ⟨"4", true⟩]
  comm := fun pid => if pid = 1 ∨ pid = 2 ∨ pid = 3 ∨ pid = 4 then some "claude\n" else none
  cwdLink := fun pid =>
    if pid = 1 then some "/a/proj"
    else if pid = 2 then some "/b/proj"
    else if pid = 3 then some "/c/proj"
    else if pid = 4 then some "/d/proj" else none
  statm := fun _ => none
  stat := fun pid =>
    if pid = 1 then some (statContent 0 0 100)
    else if pid = 2 then some (statContent 0 0 200)
    else if pid = 3 then some (statContent 0 0 300)
    else if pid = 4 then some (statContent 0 0 400) else none
  uptime := some "1000.5 2000.0"
  pageSize := 4096
  nowUnix := 2000

/-- A world with two claude processes of EQUAL start time, pids 9 and 10;
os.ReadDir lists the directory names lexically, so entry 10 precedes
entry 9. -/
def wTie : ProcWorld where
  procDir := some [⟨"10", true⟩, ⟨"9", true⟩]
  comm := fun pid => if pid = 9 ∨ pid = 10 then some "claude\n" else none
  cwdLink := fun _ => none
  statm := fun _ => none
  stat := fun pid => if pid = 9 ∨ pid = 10 then some (statContent 0 0 100) else none
  uptime := some "1000.5 2000.0"
  pageSize := 4096
  nowUnix := 2000

/-- A world whose single claude process has a stat file with exactly 12
fields after the comm field: the getCPUTime guard admits it and the
subsequent fields[12] access is out of range. -/
def wPanic : ProcWorld where
  procDir := some [⟨"1", true⟩]
  comm := fun pid => if pid = 1 then some "claude\n" else none
  cwdLink := fun _ => none
  statm := fun _ => none
  stat := fun pid => if pid = 1 then some "1 (claude) R 0 0 0 0 0 0 0 0 0 0 100" else none
  uptime := some "1000.5 2000.0"
  pageSize := 4096
  nowUnix := 2000

/-- A world where reading the /proc root itself fails. -/
def wErr : ProcWorld where
  procDir := none
  comm := fun _ => none
  cwdLink := fun _ => none
  statm := fun _ => none
  stat := fun _ => none
  uptime := none
  pageSize := 4096
  nowUnix := 0

/-- A history point with the given timestamp, for the buffer witnesses. -/
def mkPoint (i : Nat) : HistoryPoint := ⟨(i : Int), 0, []⟩

/-- Exactly MaxSamples points. -/
def ptsFull : List HistoryPoint := (List.range MaxSamples).map mkPoint

/-- MaxSamples + 1 points. -/
def ptsOver : List HistoryPoint := (List.range (MaxSamples + 1)).map mkPoint

/-- A partially filled buffer holding two points. -/
def hbTwo : HistoryBuffer := addAll NewHistoryBuffer [mkPoint 1, mkPoint 2]

/-! ## Association-map lemmas -/

lemma lookupA_insertA (m : List (Int × cpuTime)) (k : Int) (v : cpuTime) (p : Int) :
    lookupA (insertA m k v) p = if k = p then some v else lookupA m p := by
  induction m with
  | nil => simp [insertA, lookupA]
  | cons hd tl ih =>
    obtain ⟨k', v'⟩ := hd
    by_cases hk : k' = k
    · subst hk
      simp only [insertA, if_pos rfl, lookupA]
      by_cases hp : k' = p <;> simp [hp]
    · simp only [insertA, if_neg hk, lookupA, ih]
      by_cases hp : k' = p
      · subst hp
        rw [if_neg (Ne.symm hk), if_pos rfl, if_neg (Ne.symm hk)]
      · simp [hp]

lemma lookupA_insertA_isSome (m : List (Int × cpuTime)) (k : Int) (v : cpuTime) (p : Int) :
    (lookupA (insertA m k v) p).isSome ↔ p = k ∨ (lookupA m p).isSome := by
  rw [lookupA_insertA]
  by_cases h : k = p
  · simp [h]
  · simp [h, Ne.symm h]

lemma lookupA_isSome_of_mem (m : List (Int × cpuTime)) (k : Int) (v : cpuTime)
    (h : (k, v) ∈ m) : (lookupA m k).isSome := by
  induction m with
  | nil => simp at h
  | cons hd tl ih =>
    obtain ⟨k', v'⟩ := hd
    rcases List.mem_cons.mp h with h1 | h2
    · rw [← h1]
      simp [lookupA]
    · by_cases hp : k' = k <;> simp [lookupA, hp, ih h2]

lemma filter_lookupA_self (m : List (Int × cpuTime)) :
    m.filter (fun p => (lookupA m p.1).isSome) = m := by
  apply List.filter_eq_self.mpr
  intro a ha
  exact lookupA_isSome_of_mem m a.1 a.2 ha

lemma lookupS_insertS (m : List (String × Nat)) (k : String) (v : Nat) (p : String) :
    lookupS (insertS m k v) p = if k = p then some v else lookupS m p := by
  induction m with
  | nil => simp [insertS, lookupS]
  | cons hd tl ih =>
    obtain ⟨k', v'⟩ := hd
    by_cases hk : k' = k
    · subst hk
      simp only [insertS, if_pos rfl, lookupS]
      by_cases hp : k' = p <;> simp [hp]
    · simp only [insertS, if_neg hk, lookupS, ih]
      by_cases hp : k' = p
      · subst hp
        rw [if_neg (Ne.symm hk), if_pos rfl, if_neg (Ne.symm hk)]
      · simp [hp]

/-! ## First-pass lemmas -/

lemma firstPassAux_lookup (w : ProcWorld) :
    ∀ (entries : List DirEntry) (raw : List RawProcess) (cur : List (Int × cpuTime))
      (raw' : List RawProcess) (cur' : List (Int × cpuTime)),
      firstPassAux w entries raw cur = some (raw', cur') →
      ∀ pid, ((lookupA cur' pid).isSome ↔
        pid ∈ observedPids w entries ∨ (lookupA cur pid).isSome) := by
  intro entries
  induction entries with
  | nil =>
    intro raw cur raw' cur' h pid
    simp only [firstPassAux, Option.some.injEq, Prod.mk.injEq] at h
    simp [observedPids, ← h.2]
  | cons e rest ih =>
    intro raw cur raw' cur' h pid
    by_cases hdir : e.isDir
    · simp only [firstPassAux, hdir, Bool.not_true, Bool.false_eq_true, if_false] at h
      cases hatoi : goAtoi e.name with
      | none =>
        simp only [hatoi] at h
        have := ih raw cur raw' cur' h pid
        simpa [observedPids, hdir, hatoi] using this
      | some q =>
        simp only [hatoi] at h
        by_cases hcl : isClaude w q
        · rw [if_neg (by simp [hcl])] at h
          cases hct : getCPUTime w q with
          | none => simp [hct] at h
          | some ct =>
            simp only [hct] at h
            have := ih _ _ raw' cur' h pid
            rw [this, lookupA_insertA_isSome]
            have hobs : observedPids w (e :: rest) = q :: observedPids w rest := by
              simp [observedPids, hdir, hatoi, hcl]
            rw [hobs]
            simp only [List.mem_cons]
            tauto
        · rw [if_pos (by simp [hcl])] at h
          have := ih raw cur raw' cur' h pid
          simpa [observedPids, hdir, hatoi, hcl] using this
    · simp only [firstPassAux, hdir, Bool.not_false, if_true] at h
      have := ih raw cur raw' cur' h pid
      simpa [observedPids, hdir] using this

/-! ## Second-pass lemmas -/

lemma secondPassAux_map_pid_start (prev : List (Int × cpuTime)) (ck el : ℚ) :
    ∀ (raw : List RawProcess) (nc : List (String × Nat)),
      (secondPassAux prev ck el raw nc).map (fun p => (p.PID, p.StartTime)) =
        raw.map (fun rp => (rp.proc.PID, rp.proc.StartTime)) := by
  intro raw
  induction raw with
  | nil => intro nc; simp [secondPassAux]
  | cons rp rest ih => intro nc; simp [secondPassAux, ih]

lemma secondPassAux_map_cpu (prev : List (Int × cpuTime)) (ck el : ℚ) :
    ∀ (raw : List RawProcess) (nc : List (String × Nat)),
      (secondPassAux prev ck el raw nc).map (fun p => p.CPUPercent) =
        raw.map (fun rp => calcCPUPercent (lookupA prev rp.proc.PID) rp.ct ck el) := by
  intro raw
  induction raw with
  | nil => intro nc; simp [secondPassAux]
  | cons rp rest ih => intro nc; simp [secondPassAux, ih]

lemma secondPassAux_map_name (prev : List (Int × cpuTime)) (ck el : ℚ) :
    ∀ (raw : List RawProcess) (nc : List (String × Nat)),
      (secondPassAux prev ck el raw nc).map (fun p => p.Name) =
        assignNamesSpec nc (raw.map (fun rp => rp.proc.Name)) := by
  intro raw
  induction raw with
  | nil => intro nc; simp [secondPassAux, assignNamesSpec]
  | cons rp rest ih =>
    intro nc
    simp only [secondPassAux, assignName, List.map_cons, assignNamesSpec]
    rw [ih]
    split <;> rfl

lemma secondPassAux_cpu_zero (prev : List (Int × cpuTime)) (ck el : ℚ) :
    ∀ (raw : List RawProcess) (nc : List (String × Nat)) (p : ClaudeProcess),
      p ∈ secondPassAux prev ck el raw nc → lookupA prev p.PID = none →
      p.CPUPercent = 0 := by
  intro raw
  induction raw with
  | nil => intro nc p hp; simp [secondPassAux] at hp
  | cons rp rest ih =>
    intro nc p hp hnone
    simp only [secondPassAux, List.mem_cons] at hp
    rcases hp with hp | hp
    · subst hp
      simp only at hnone ⊢
      rw [hnone, calcCPUPercent]
    · exact ih _ p hp hnone

/-! ## Naming lemmas -/

lemma countIn_append (xs ys : List String) (b : String) :
    countIn (xs ++ ys) b = countIn xs b + countIn ys b := by
  simp [countIn, List.filter_append]

lemma countIn_singleton (x b : String) :
    countIn [x] b = if x = b then 1 else 0 := by
  by_cases h : x = b <;> simp [countIn, h]

lemma countIn_nil (b : String) : countIn [] b = 0 := rfl

lemma assignNamesSpec_getElem (bs : List String) :
    ∀ (nc : List (String × Nat)) (pre : List String),
      (∀ b, (lookupS nc b).getD 0 = countIn pre b) → ∀ i,
      (assignNamesSpec nc bs)[i]? = bs[i]?.map (fun b =>
        if countIn (pre ++ bs.take i) b + 1 > 1 then
          b ++ " (" ++ getOrdinalSuffix (countIn (pre ++ bs.take i) b + 1) ++ ")"
        else b) := by
  induction bs with
  | nil => intro nc pre hnc i; simp [assignNamesSpec]
  | cons b0 bs' ih =>
    intro nc pre hnc i
    cases i with
    | zero =>
      simp only [assignNamesSpec, List.getElem?_cons_zero, List.take_zero,
        List.append_nil, Option.map_some']
      rw [hnc b0]
    | succ i =>
      simp only [assignNamesSpec, List.getElem?_cons_succ, List.take_succ_cons]
      rw [ih (insertS nc b0 ((lookupS nc b0).getD 0 + 1)) (pre ++ [b0]) ?_ i]
      · have harr : (pre ++ [b0]) ++ bs'.take i = pre ++ (b0 :: bs'.take i) := by
          simp
        rw [harr]
      · intro b
        rw [lookupS_insertS]
        by_cases hb : b0 = b
        · subst hb
          simp [countIn_append, countIn_singleton, hnc b0]
        · simp [hb, hnc b, countIn_append, countIn_singleton]

/-! ## Sort lemmas -/

lemma goOrderedInsert_perm {α : Type} (less : α → α → Bool) (a : α) :
    ∀ l : List α, (goOrderedInsert less a l).Perm (a :: l) := by
  intro l
  induction l with
  | nil => simp [goOrderedInsert]
  | cons b t ih =>
    by_cases hless : less a b
    · simp [goOrderedInsert, hless]
    · simp only [goOrderedInsert, hless, Bool.false_eq_true, if_false]
      exact (ih.cons b).trans (List.Perm.swap a b t)

lemma goSortSlice_perm_aux {α : Type} (less : α → α → Bool) :
    ∀ (l acc : List α),
      (l.foldl (fun acc a => goOrderedInsert less a acc) acc).Perm (l ++ acc) := by
  intro l
  induction l with
  | nil => intro acc; simp
  | cons a t ih =>
    intro acc
    have h1 := ih (goOrderedInsert less a acc)
    have h2 : (t ++ goOrderedInsert less a acc).Perm (t ++ (a :: acc)) :=
      List.Perm.append_left t (goOrderedInsert_perm less a acc)
    have h3 : (t ++ (a :: acc)).Perm (a :: (t ++ acc)) := List.perm_middle
    simpa using (h1.trans h2).trans h3

lemma goSortSlice_perm {α : Type} (less : α → α → Bool) (l : List α) :
    (goSortSlice less l).Perm l := by
  simpa using goSortSlice_perm_aux less l []

/-- The sortedness order of the start-time comparator. -/
def leStart (a b : RawProcess) : Prop := a.proc.StartTime ≤ b.proc.StartTime

lemma goOrderedInsert_sorted (a : RawProcess) :
    ∀ l : List RawProcess, l.Pairwise leStart →
      (goOrderedInsert lessStart a l).Pairwise leStart := by
  intro l
  induction l with
  | nil => intro _; simp [goOrderedInsert, List.pairwise_singleton]
  | cons b t ih =>
    intro h
    rcases List.pairwise_cons.mp h with ⟨hb, ht⟩
    by_cases hless : lessStart a b
    · simp only [goOrderedInsert, hless, if_true]
      refine List.pairwise_cons.mpr ⟨?_, h⟩
      intro x hx
      have hab : a.proc.StartTime < b.proc.StartTime := by
        simpa [lessStart] using hless
      rcases List.mem_cons.mp hx with rfl | hxt
      · exact le_of_lt hab
      · exact le_trans (le_of_lt hab) (hb x hxt)
    · simp only [goOrderedInsert, hless, Bool.false_eq_true, if_false]
      refine List.pairwise_cons.mpr ⟨?_, ih ht⟩
      intro x hx
      have hba : b.proc.StartTime ≤ a.proc.StartTime := by
        simpa [lessStart, not_lt] using hless
      rcases List.mem_cons.mp ((goOrderedInsert_perm lessStart a t).mem_iff.mp hx) with rfl | hxt
      · exact hba
      · exact hb x hxt

lemma goSortSlice_sorted_aux :
    ∀ (l acc : List RawProcess), acc.Pairwise leStart →
      (l.foldl (fun acc a => goOrderedInsert lessStart a acc) acc).Pairwise leStart := by
  intro l
  induction l with
  | nil => intro acc h; simpa using h
  | cons a t ih =>
    intro acc h
    exact ih (goOrderedInsert lessStart a acc) (goOrderedInsert_sorted a acc h)

lemma goSortSlice_sorted (l : List RawProcess) :
    (goSortSlice lessStart l).Pairwise leStart :=
  goSortSlice_sorted_aux l [] List.Pairwise.nil

/-! ## CPU-percentage arithmetic lemmas -/

lemma calcCPUPercent_range (prevOpt : Option cpuTime) (ct : cpuTime) (ck el : ℚ) :
    0 ≤ calcCPUPercent prevOpt ct ck el ∧ calcCPUPercent prevOpt ct ck el ≤ 100 := by
  cases prevOpt with
  | none =>
    rw [show calcCPUPercent none ct ck el = 0 from rfl]
    exact ⟨le_refl 0, by norm_num⟩
  | some prev =>
    simp only [calcCPUPercent]
    split_ifs <;> constructor <;> linarith

lemma calcCPUPercent_clamp100 (prev ct : cpuTime) (ck el : ℚ)
    (h : 100 < ((u64add (u64sub ct.utime prev.utime) (u64sub ct.stime prev.stime) : Nat) : ℚ) /
      ck / el * 100) :
    calcCPUPercent (some prev) ct ck el = 100 := by
  simp only [calcCPUPercent]
  have hq0 : ¬ (((u64add (u64sub ct.utime prev.utime) (u64sub ct.stime prev.stime) : Nat) : ℚ) /
      ck / el * 100 < 0) := by linarith
  rw [if_neg hq0, if_pos h]

lemma u64sub_of_le (a b : Nat) (hba : b ≤ a) (ha : a < U64) : u64sub a b = a - b := by
  have hb : b % U64 = b := Nat.mod_eq_of_lt (lt_of_le_of_lt hba ha)
  rw [u64sub, hb]
  have h1 : a + (U64 - b) = (a - b) + U64 := by
    have : b ≤ U64 := le_of_lt (lt_of_le_of_lt hba ha)
    omega
  rw [h1, Nat.add_mod_right, Nat.mod_eq_of_lt (by omega)]

lemma u64add_of_lt (a b : Nat) (h : a + b < U64) : u64add a b = a + b := by
  rw [u64add, Nat.mod_eq_of_lt h]

lemma calcCPUPercent_exact (prev ct : cpuTime) (ck el : ℚ)
    (h1 : prev.utime ≤ ct.utime) (h2 : prev.stime ≤ ct.stime)
    (hu : ct.utime < U64) (hs : ct.stime < U64)
    (hsum : (ct.utime - prev.utime) + (ct.stime - prev.stime) < U64)
    (hck : 0 < ck) (hel : 0 < el) :
    calcCPUPercent (some prev) ct ck el =
      (if (((ct.utime - prev.utime) + (ct.stime - prev.stime) : Nat) : ℚ) / ck / el * 100 > 100
       then 100
       else (((ct.utime - prev.utime) + (ct.stime - prev.stime) : Nat) : ℚ) / ck / el * 100) := by
  have hd : u64add (u64sub ct.utime prev.utime) (u64sub ct.stime prev.stime) =
      (ct.utime - prev.utime) + (ct.stime - prev.stime) := by
    rw [u64sub_of_le _ _ h1 hu, u64sub_of_le _ _ h2 hs]
    exact u64add_of_lt _ _ hsum
  simp only [calcCPUPercent, hd]
  have hq : (0 : ℚ) ≤ (((ct.utime - prev.utime) + (ct.stime - prev.stime) : Nat) : ℚ) /
      ck / el * 100 := by
    positivity
  have hq0 : ¬ ((((ct.utime - prev.utime) + (ct.stime - prev.stime) : Nat) : ℚ) /
      ck / el * 100 < 0) := by linarith
  rw [if_neg hq0]

/-! ## Ring-buffer lemmas -/

lemma take_succ_set (x : HistoryPoint) :
    ∀ (l : List HistoryPoint) (k : Nat), k < l.length →
      (l.set k x).take (k + 1) = l.take k ++ [x] := by
  intro l
  induction l with
  | nil => intro k hk; simp at hk
  | cons a t ih =>
    intro k hk
    cases k with
    | zero => simp
    | succ k =>
      simp only [List.set_cons_succ, List.take_succ_cons, List.cons_append,
        List.cons.injEq, true_and]
      exact ih k (by simpa using hk)

lemma set_last_eq_take_append (x : HistoryPoint) (l : List HistoryPoint) (k : Nat)
    (hk : l.length = k + 1) : l.set k x = l.take k ++ [x] := by
  have h1 := take_succ_set x l k (by omega)
  have h2 : l.length = (l.set k x).length := (List.length_set l k x).symm
  rw [← hk, h2, List.take_length] at h1
  exact h1

set_option maxRecDepth 4000 in
lemma invHB_new : InvHB NewHistoryBuffer := by decide

lemma invHB_add (hb : HistoryBuffer) (x : HistoryPoint) (h : InvHB hb) :
    InvHB (hb.Add x) := by
  obtain ⟨hlen, hcnt, hhead, hfill⟩ := h
  have hM : MaxSamples = 360 := rfl
  rw [hM] at hcnt hhead hfill
  refine ⟨by simp [HistoryBuffer.Add, hlen], ?_, ?_, ?_⟩
  · simp only [HistoryBuffer.Add, hM]
    split <;> omega
  · simp only [HistoryBuffer.Add, hM]
    omega
  · simp only [HistoryBuffer.Add, hM]
    split
    · intro hlt
      have hc : hb.head = hb.count := hfill (by omega)
      omega
    · intro hlt
      omega

lemma getAll_length (hb : HistoryBuffer) (h : InvHB hb) :
    hb.GetAll.length = hb.count := by
  obtain ⟨hlen, hcnt, hhead, hfill⟩ := h
  by_cases h0 : hb.count = 0
  · simp [HistoryBuffer.GetAll, h0]
  · by_cases hlt : hb.count < MaxSamples
    · simp only [HistoryBuffer.GetAll, if_neg h0, if_pos hlt]
      simp [hlen]
      omega
    · simp only [HistoryBuffer.GetAll, if_neg h0, if_neg hlt]
      simp [hlen]
      omega

lemma getAll_of_not_full (hb : HistoryBuffer) (_h : InvHB hb)
    (hlt : hb.count < MaxSamples) : hb.GetAll = hb.data.take hb.count := by
  by_cases h0 : hb.count = 0
  · simp [HistoryBuffer.GetAll, h0]
  · simp [HistoryBuffer.GetAll, h0, hlt]

lemma add_getAll_not_full (hb : HistoryBuffer) (x : HistoryPoint) (h : InvHB hb)
    (hlt : hb.count < MaxSamples) : (hb.Add x).GetAll = hb.GetAll ++ [x] := by
  obtain ⟨hlen, hcnt, hhead, hfill⟩ := h
  have hhc : hb.head = hb.count := hfill hlt
  have hcount' : (hb.Add x).count = hb.count + 1 := by
    simp [HistoryBuffer.Add, hlt]
  rw [getAll_of_not_full hb ⟨hlen, hcnt, hhead, hfill⟩ hlt]
  by_cases hc2 : hb.count + 1 < MaxSamples
  · have : (hb.Add x).GetAll = (hb.Add x).data.take ((hb.Add x).count) := by
      apply getAll_of_not_full _ (invHB_add hb x ⟨hlen, hcnt, hhead, hfill⟩)
      omega
    rw [this, hcount']
    simp only [HistoryBuffer.Add, hhc]
    exact take_succ_set x hb.data hb.count (by omega)
  · have hfullc : hb.count + 1 = MaxSamples := by omega
    have hhead' : (hb.Add x).head = 0 := by
      simp [HistoryBuffer.Add, hhc, hfullc]
    have hc0 : ¬ ((hb.Add x).count = 0) := by omega
    have hc1 : ¬ ((hb.Add x).count < MaxSamples) := by omega
    simp only [HistoryBuffer.GetAll, if_neg hc0, if_neg hc1, hhead', List.drop_zero,
      List.take_zero, List.append_nil]
    simp only [HistoryBuffer.Add, hhc]
    exact set_last_eq_take_append x hb.data hb.count (by omega)

lemma add_getAll_full (hb : HistoryBuffer) (x : HistoryPoint) (h : InvHB hb)
    (hfull : hb.count = MaxSamples) : (hb.Add x).GetAll = hb.GetAll.drop 1 ++ [x] := by
  obtain ⟨hlen, hcnt, hhead, hfill⟩ := h
  have hM : (0 : Nat) < MaxSamples := by norm_num [MaxSamples]
  have hga : hb.GetAll = hb.data.drop hb.head ++ hb.data.take hb.head := by
    have h0 : ¬ (hb.count = 0) := by omega
    have h1 : ¬ (hb.count < MaxSamples) := by omega
    simp [HistoryBuffer.GetAll, h0, h1]
  have hcount' : (hb.Add x).count = MaxSamples := by
    simp [HistoryBuffer.Add, hfull]
  have hlendrop : 1 ≤ (hb.data.drop hb.head).length := by
    simp [hlen]
    omega
  have hrhs : hb.GetAll.drop 1 ++ [x] =
      hb.data.drop (hb.head + 1) ++ (hb.data.take hb.head ++ [x]) := by
    rw [hga, List.drop_append_of_le_length hlendrop, List.drop_drop, List.append_assoc]
  have hc0 : ¬ ((hb.Add x).count = 0) := by omega
  have hc1 : ¬ ((hb.Add x).count < MaxSamples) := by omega
  rw [hrhs]
  simp only [HistoryBuffer.GetAll, if_neg hc0, if_neg hc1]
  by_cases hh : hb.head + 1 < MaxSamples
  · have hhead' : (hb.Add x).head = hb.head + 1 := by
      have hM360 : MaxSamples = 360 := rfl
      rw [hM360] at hh
      simp only [HistoryBuffer.Add, hM360]
      omega
    rw [hhead']
    have hdata : (hb.Add x).data = hb.data.set hb.head x := rfl
    rw [hdata, List.drop_set_of_lt _ _ (by omega),
      take_succ_set x hb.data hb.head (by omega)]
  · have hh360 : hb.head + 1 = MaxSamples := by omega
    have hhead' : (hb.Add x).head = 0 := by
      simp [HistoryBuffer.Add, hh360]
    rw [hhead']
    have hdata : (hb.Add x).data = hb.data.set hb.head x := rfl
    simp only [List.drop_zero, List.take_zero, List.append_nil, hdata]
    have hdropnil : hb.data.drop (hb.head + 1) = [] :=
      List.drop_eq_nil_of_le (by omega)
    rw [hdropnil, List.nil_append]
    exact set_last_eq_take_append x hb.data hb.head (by omega)

lemma addAll_append_one (hb : HistoryBuffer) (l : List HistoryPoint) (x : HistoryPoint) :
    addAll hb (l ++ [x]) = (addAll hb l).Add x := by
  simp [addAll, List.foldl_append]

lemma addAll_spec (l : List HistoryPoint) :
    InvHB (addAll NewHistoryBuffer l) ∧
      (addAll NewHistoryBuffer l).count = min l.length MaxSamples ∧
      (addAll NewHistoryBuffer l).GetAll = l.drop (l.length - MaxSamples) := by
  induction l using List.reverseRecOn with
  | nil =>
    refine ⟨invHB_new, ?_, ?_⟩ <;> simp [addAll, NewHistoryBuffer, HistoryBuffer.GetAll]
  | append_singleton l x ih =>
    obtain ⟨hinv, hcount, hget⟩ := ih
    rw [addAll_append_one]
    refine ⟨invHB_add _ x hinv, ?_, ?_⟩
    · have hM360 : MaxSamples = 360 := rfl
      simp only [HistoryBuffer.Add, hcount, List.length_append, List.length_singleton, hM360]
      split <;> omega
    · by_cases hlt : l.length < MaxSamples
      · have hcl : (addAll NewHistoryBuffer l).count < MaxSamples := by omega
        rw [add_getAll_not_full _ x hinv hcl, hget]
        have h1 : l.length - MaxSamples = 0 := by omega
        have h2 : l.length + 1 - MaxSamples = 0 := by omega
        simp [h1, h2]
      · have hcl : (addAll NewHistoryBuffer l).count = MaxSamples := by omega
        rw [add_getAll_full _ x hinv hcl, hget, List.drop_drop]
        have h3 : (l ++ [x]).length - MaxSamples = (l.length - MaxSamples) + 1 := by
          simp
          omega
        have h4 : l.length - MaxSamples + 1 ≤ l.length := by
          have hM360 : MaxSamples = 360 := rfl
          omega
        rw [h3, List.drop_append_of_le_length h4]

/-! ## GetProcesses case analysis -/

lemma getProcesses_none_dir (w : ProcWorld) (e : ℚ) (pm : PMState)
    (hpd : w.procDir = none) :
    GetProcesses w e pm = some (.error "failed to read /proc") := by
  simp [GetProcesses, hpd]

lemma getProcesses_ok_eq (w : ProcWorld) (entries : List DirEntry) (e : ℚ) (pm : PMState)
    (rawCur : List RawProcess × List (Int × cpuTime))
    (hpd : w.procDir = some entries) (hfp : firstPassAux w entries [] [] = some rawCur) :
    GetProcesses w e pm = some (.ok
      (secondPassAux pm.prevCPUTimes pm.clkTck (if e < 1 / 10 then 1 / 10 else e)
        (goSortSlice lessStart rawCur.1) [],
       ⟨rawCur.2.filter (fun p => (lookupA rawCur.2 p.1).isSome), pm.clkTck⟩)) := by
  simp [GetProcesses, hpd, hfp]

lemma isOk_elim (w : ProcWorld) (e : ℚ) (pm : PMState)
    (hok : isOk (GetProcesses w e pm) = true) :
    ∃ entries rawCur, w.procDir = some entries ∧
      firstPassAux w entries [] [] = some rawCur := by
  cases hpd : w.procDir with
  | none =>
    rw [getProcesses_none_dir w e pm hpd] at hok
    simp [isOk] at hok
  | some entries =>
    cases hfp : firstPassAux w entries [] [] with
    | none =>
      have hn : GetProcesses w e pm = none := by simp [GetProcesses, hpd, hfp]
      rw [hn] at hok
      simp [isOk] at hok
    | some rawCur => exact ⟨entries, rawCur, rfl, hfp⟩

lemma resultOf_eq (w : ProcWorld) (entries : List DirEntry) (e : ℚ) (pm : PMState)
    (rawCur : List RawProcess × List (Int × cpuTime))
    (hpd : w.procDir = some entries) (hfp : firstPassAux w entries [] [] = some rawCur) :
    resultOf w e pm =
      (secondPassAux pm.prevCPUTimes pm.clkTck (if e < 1 / 10 then 1 / 10 else e)
        (goSortSlice lessStart rawCur.1) [],
       ⟨rawCur.2.filter (fun p => (lookupA rawCur.2 p.1).isSome), pm.clkTck⟩) := by
  unfold resultOf
  rw [getProcesses_ok_eq w entries e pm rawCur hpd hfp]

/-! ## Claim theorems -/

/-- Claim C2: for the ring buffer of capacity MaxSamples = 360, inserting
at most capacity-many samples into the empty buffer reads back exactly the
inserted samples in insertion order; from capacity onward GetAll returns
the most recent 360 samples (so one extra insertion evicts precisely the
first-inserted sample and the length stays 360), and the full-buffer
read-out is the splice of the storage tail from the write cursor followed
by the head up to the cursor, a contiguous oldest-to-newest sequence. -/
theorem claim_C2_ring_buffer (l : List HistoryPoint) :
    (l.length ≤ MaxSamples → (addAll NewHistoryBuffer l).GetAll = l) ∧
    (MaxSamples ≤ l.length →
      (addAll NewHistoryBuffer l).GetAll = l.drop (l.length - MaxSamples) ∧
      (addAll NewHistoryBuffer l).GetAll.length = MaxSamples ∧
      (addAll NewHistoryBuffer l).GetAll =
        (addAll NewHistoryBuffer l).data.drop (addAll NewHistoryBuffer l).head ++
          (addAll NewHistoryBuffer l).data.take (addAll NewHistoryBuffer l).head) ∧
    (l.length = MaxSamples + 1 → (addAll NewHistoryBuffer l).GetAll = l.tail) := by
  obtain ⟨hinv, hcount, hget⟩ := addAll_spec l
  refine ⟨?_, ?_, ?_⟩
  · intro hle
    rw [hget, Nat.sub_eq_zero_of_le hle, List.drop_zero]
  · intro hge
    refine ⟨hget, ?_, ?_⟩
    · rw [hget, List.length_drop]
      omega
    · have hc : (addAll NewHistoryBuffer l).count = MaxSamples := by omega
      have h0 : ¬ ((addAll NewHistoryBuffer l).count = 0) := by
        rw [hc]
        norm_num [MaxSamples]
      have h1 : ¬ ((addAll NewHistoryBuffer l).count < MaxSamples) := by omega
      simp [HistoryBuffer.GetAll, h0, h1]
  · intro hlen
    rw [hget, hlen, Nat.add_sub_cancel_left, List.drop_one]

/-- Witness for claim C2: a list of exactly 360 points reads back
unchanged, and a list of 361 points reads back as its tail (the first
point evicted), of length 360. -/
theorem claim_C2_ring_buffer_witness :
    (ptsFull.length ≤ MaxSamples ∧ (addAll NewHistoryBuffer ptsFull).GetAll = ptsFull) ∧
    (MaxSamples ≤ ptsOver.length ∧
      (addAll NewHistoryBuffer ptsOver).GetAll.length = MaxSamples) ∧
    (ptsOver.length = MaxSamples + 1 ∧
      (addAll NewHistoryBuffer ptsOver).GetAll = ptsOver.tail) := by
  have hlen1 : ptsFull.length ≤ MaxSamples := by
    simp [ptsFull]
  have hlen2 : MaxSamples ≤ ptsOver.length := by
    simp [ptsOver]
  have hlen3 : ptsOver.length = MaxSamples + 1 := by
    simp [ptsOver]
  exact ⟨⟨hlen1, (claim_C2_ring_buffer ptsFull).1 hlen1⟩,
    ⟨hlen2, ((claim_C2_ring_buffer ptsOver).2.1 hlen2).2.1⟩,
    ⟨hlen3, (claim_C2_ring_buffer ptsOver).2.2 hlen3⟩⟩

/-- Claim C3 (code bug): the spec requires a negative counter delta to be
clamped to 0, and the dead `if percent < 0` branch in the source shows the
same intent, but the counters are uint64, so a current total smaller than
the previous total wraps to a huge positive delta and the computed
percentage is clamped to 100 instead: with previous pair (1000, 0),
current pair (999, 0), 100 ticks/s and 5 s elapsed the source yields 100,
not 0. -/
theorem claim_C3_negative_delta_yields_100 :
    calcCPUPercent (some ⟨1000, 0⟩) ⟨999, 0⟩ 100 5 = 100 ∧
    ((999 : Nat) + 0 < 1000 + 0) := by
  constructor
  · norm_num [calcCPUPercent, u64add, u64sub, U64]
  · norm_num

/-- Claim C8: on every reachable buffer state, GetLast n returns all
currently held samples when n exceeds the occupancy (length = occupancy),
and the n most recent samples (the tail of GetAll) when n is at most the
occupancy. -/
theorem claim_C8_getLast (hb : HistoryBuffer) (hinv : InvHB hb) (n : Nat) :
    (hb.count < n → hb.GetLast n = hb.GetAll ∧ (hb.GetLast n).length = hb.count) ∧
    (n ≤ hb.count → hb.GetLast n = hb.GetAll.drop (hb.count - n) ∧
      (hb.GetLast n).length = n) := by
  have hlen := getAll_length hb hinv
  constructor
  · intro hlt
    have hle : hb.GetAll.length ≤ n := by omega
    constructor
    · simp only [HistoryBuffer.GetLast, if_pos hle]
    · simp only [HistoryBuffer.GetLast, if_pos hle]
      exact hlen
  · intro hge
    by_cases heq : hb.GetAll.length ≤ n
    · have hn : n = hb.count := by omega
      simp only [HistoryBuffer.GetLast, if_pos heq]
      subst hn
      simp [hlen]
    · simp only [HistoryBuffer.GetLast, if_neg heq]
      rw [hlen]
      refine ⟨rfl, ?_⟩
      rw [List.length_drop, hlen]
      omega

set_option maxRecDepth 8000 in
/-- Witness for claim C8: on a buffer holding two samples, GetLast 5
returns both held samples and GetLast 1 returns the tail of GetAll. -/
theorem claim_C8_getLast_witness :
    (InvHB hbTwo ∧ hbTwo.count < 5 ∧ hbTwo.GetLast 5 = hbTwo.GetAll ∧
      (hbTwo.GetLast 5).length = hbTwo.count) ∧
    (1 ≤ hbTwo.count ∧ hbTwo.GetLast 1 = hbTwo.GetAll.drop (hbTwo.count - 1) ∧
      (hbTwo.GetLast 1).length = 1) := by
  have hinv : InvHB hbTwo := by decide
  have h5 : hbTwo.count < 5 := by decide
  have h1 : 1 ≤ hbTwo.count := by decide
  obtain ⟨ha, hb⟩ := (claim_C8_getLast hbTwo hinv 5).1 h5
  obtain ⟨hc, hd⟩ := (claim_C8_getLast hbTwo hinv 1).2 h1
  exact ⟨⟨hinv, h5, ha, hb⟩, ⟨h1, hc, hd⟩⟩

/-- Claim C9 (code bug): GetProcesses is specified to fail only when the
/proc root cannot be listed and to absorb every per-process read failure,
but getCPUTime guards len(fields) < 12 and then reads fields[12], so a
stat file with exactly 12 fields after the comm parenthesis makes the Go
code index out of range and panic: on such a world the poll neither
returns a list nor an error (modelled none), while the /proc-root failure
world does return the error. -/
theorem claim_C9_stat_panic :
    getCPUTime wPanic 1 = none ∧
    GetProcesses wPanic 5 NewProcessMonitor = none ∧
    GetProcesses wErr 5 NewProcessMonitor = some (.error "failed to read /proc") ∧
    (goFields "R 0 0 0 0 0 0 0 0 0 0 100").length = 12 := by
  refine ⟨by decide, by rfl, by rfl, by decide⟩

/-- Claim C10: when GetProcesses fails with an error, RecordHistory
returns without touching any state: the history buffer (contents, cursor
and occupancy alike) and the estimator state are returned unchanged and
nothing is appended. -/
theorem claim_C10_no_record_on_error (w : ProcWorld) (e temp : ℚ) (ts : Int)
    (pm : PMState) (hb : HistoryBuffer) (msg : String)
    (herr : GetProcesses w e pm = some (.error msg)) :
    RecordHistory w e temp ts pm hb = some (pm, hb) := by
  simp [RecordHistory, herr]

/-- Witness for claim C10: on the world whose /proc listing fails,
RecordHistory leaves the fresh monitor state and empty buffer unchanged. -/
theorem claim_C10_no_record_on_error_witness :
    GetProcesses wErr 5 NewProcessMonitor = some (.error "failed to read /proc") ∧
    RecordHistory wErr 5 0 0 NewProcessMonitor NewHistoryBuffer =
      some (NewProcessMonitor, NewHistoryBuffer) :=
  ⟨rfl, claim_C10_no_record_on_error wErr 5 0 0 NewProcessMonitor NewHistoryBuffer
    "failed to read /proc" rfl⟩

/-- Claim C1: each returned process's CPU percentage is the estimator
formula applied to its own counter pair, the prior pair under its pid, the
tick rate and the elapsed gap floored at 0.1 s; for monotone in-range
counters the uint64 tick delta is the plain difference, so the value is
(curUser - prevUser + (curStime - prevStime)) / ticksPerSecond / elapsed
* 100 clamped at 100; the result always lies in [0, 100], exceeding tick
math is clamped to exactly 100, elapsed below 0.1 s is floored to 0.1 s,
and the 1000 -> 1150 ticks / 5 s / 100 ticks-per-second instance is
exactly 30. -/
theorem claim_C1_cpu_formula :
    (∀ (w : ProcWorld) (e : ℚ) (pm : PMState),
      isOk (GetProcesses w e pm) = true →
      (resultOf w e pm).1.map (fun p => p.CPUPercent) = expectedCPUList w e pm) ∧
    (∀ (prev ct : cpuTime) (ck el : ℚ),
      prev.utime ≤ ct.utime → prev.stime ≤ ct.stime →
      ct.utime < U64 → ct.stime < U64 →
      (ct.utime - prev.utime) + (ct.stime - prev.stime) < U64 →
      0 < ck → 0 < el →
      calcCPUPercent (some prev) ct ck el =
        (if (((ct.utime - prev.utime) + (ct.stime - prev.stime) : Nat) : ℚ) /
            ck / el * 100 > 100
         then 100
         else (((ct.utime - prev.utime) + (ct.stime - prev.stime) : Nat) : ℚ) /
            ck / el * 100)) ∧
    (∀ (prevOpt : Option cpuTime) (ct : cpuTime) (ck el : ℚ),
      0 ≤ calcCPUPercent prevOpt ct ck el ∧ calcCPUPercent prevOpt ct ck el ≤ 100) ∧
    (∀ (prev ct : cpuTime) (ck el : ℚ),
      100 < ((u64add (u64sub ct.utime prev.utime) (u64sub ct.stime prev.stime) : Nat) : ℚ) /
        ck / el * 100 →
      calcCPUPercent (some prev) ct ck el = 100) ∧
    (∀ (w : ProcWorld) (e : ℚ) (pm : PMState), e ≤ 1 / 10 →
      GetProcesses w e pm = GetProcesses w (1 / 10) pm) ∧
    calcCPUPercent (some ⟨1000, 0⟩) ⟨1150, 0⟩ 100 5 = 30 := by
  refine ⟨?_, ?_, ?_, ?_, ?_, ?_⟩
  · intro w e pm hok
    obtain ⟨entries, rawCur, hpd, hfp⟩ := isOk_elim w e pm hok
    rw [resultOf_eq w entries e pm rawCur hpd hfp]
    simp only [expectedCPUList, hpd, hfp]
    exact secondPassAux_map_cpu pm.prevCPUTimes pm.clkTck
      (if e < 1 / 10 then 1 / 10 else e) (goSortSlice lessStart rawCur.1) []
  · intro prev ct ck el h1 h2 hu hs hsum hck hel
    exact calcCPUPercent_exact prev ct ck el h1 h2 hu hs hsum hck hel
  · intro prevOpt ct ck el
    exact calcCPUPercent_range prevOpt ct ck el
  · intro prev ct ck el h
    exact calcCPUPercent_clamp100 prev ct ck el h
  · intro w e pm he
    have h1 : (if e < 1 / 10 then (1 / 10 : ℚ) else e) = 1 / 10 := by
      rcases lt_or_eq_of_le he with h | h
      · rw [if_pos h]
      · rw [h, if_neg (lt_irrefl _)]
    have h2 : (if (1 / 10 : ℚ) < 1 / 10 then (1 / 10 : ℚ) else 1 / 10) = 1 / 10 := by
      rw [if_neg (lt_irrefl _)]
    unfold GetProcesses
    simp only [h1, h2]
  · norm_num [calcCPUPercent, u64add, u64sub, U64]

/-- Witness for claim C1: the formula conjuncts applied to a successful
fresh poll, to a concrete monotone counter pair (30 percent), to a
concrete over-100 tick delta (clamped to 100), and to a zero elapsed gap
(floored to 0.1 s). -/
theorem claim_C1_cpu_formula_witness :
    (isOk (GetProcesses wNameA 5 NewProcessMonitor) = true ∧
      (resultOf wNameA 5 NewProcessMonitor).1.map (fun p => p.CPUPercent) =
        expectedCPUList wNameA 5 NewProcessMonitor) ∧
    ((1000 : Nat) ≤ 1150 ∧
      calcCPUPercent (some ⟨1000, 0⟩) ⟨1150, 0⟩ 100 5 =
        (if (((1150 - 1000) + (0 - 0) : Nat) : ℚ) / 100 / 5 * 100 > 100
         then 100
         else (((1150 - 1000) + (0 - 0) : Nat) : ℚ) / 100 / 5 * 100)) ∧
    (100 < ((u64add (u64sub 1000000 0) (u64sub 0 0) : Nat) : ℚ) / 100 / 1 * 100 ∧
      calcCPUPercent (some ⟨0, 0⟩) ⟨1000000, 0⟩ 100 1 = 100) ∧
    ((0 : ℚ) ≤ 1 / 10 ∧
      GetProcesses wNameA 0 NewProcessMonitor =
        GetProcesses wNameA (1 / 10) NewProcessMonitor) := by
  have hok : isOk (GetProcesses wNameA 5 NewProcessMonitor) = true := by decide
  have hd : (100 : ℚ) < ((u64add (u64sub 1000000 0) (u64sub 0 0) : Nat) : ℚ) /
      100 / 1 * 100 := by
    norm_num [u64add, u64sub, U64]
  refine ⟨⟨hok, claim_C1_cpu_formula.1 wNameA 5 NewProcessMonitor hok⟩,
    ⟨by norm_num,
      claim_C1_cpu_formula.2.1 ⟨1000, 0⟩ ⟨1150, 0⟩ 100 5 (by norm_num) (by norm_num)
        (by norm_num [U64]) (by norm_num [U64]) (by norm_num [U64])
        (by norm_num) (by norm_num)⟩,
    ⟨hd, claim_C1_cpu_formula.2.2.2.1 ⟨0, 0⟩ ⟨1000000, 0⟩ 100 1 hd⟩,
    ⟨by norm_num,
      claim_C1_cpu_formula.2.2.2.2.1 wNameA 0 NewProcessMonitor (by norm_num)⟩⟩

/-- Claim C4: after every successful poll, the replaced estimator map has
an entry exactly for the process ids observed in that poll. -/
theorem claim_C4_state_replacement (w : ProcWorld) (entries : List DirEntry)
    (e : ℚ) (pm : PMState) (pid : Int)
    (hpd : w.procDir = some entries)
    (hok : isOk (GetProcesses w e pm) = true) :
    ((lookupA (resultOf w e pm).2.prevCPUTimes pid).isSome ↔
      pid ∈ observedPids w entries) := by
  obtain ⟨entries', rawCur, hpd', hfp⟩ := isOk_elim w e pm hok
  rw [hpd] at hpd'
  obtain rfl := Option.some.inj hpd'
  rw [resultOf_eq w entries e pm rawCur hpd hfp]
  simp only [filter_lookupA_self]
  have hiff := firstPassAux_lookup w entries [] [] rawCur.1 rawCur.2 hfp pid
  simpa [lookupA] using hiff

/-- Witness for claim C4: on the three-process world, pid 1 is in the
replaced map and is among the observed pids. -/
theorem claim_C4_state_replacement_witness :
    wNameA.procDir = some [⟨"1", true⟩, ⟨"2", true⟩, ⟨"3", true⟩] ∧
    isOk (GetProcesses wNameA 5 NewProcessMonitor) = true ∧
    ((lookupA (resultOf wNameA 5 NewProcessMonitor).2.prevCPUTimes 1).isSome ↔
      1 ∈ observedPids wNameA [⟨"1", true⟩, ⟨"2", true⟩, ⟨"3", true⟩]) := by
  have hpd : wNameA.procDir = some [⟨"1", true⟩, ⟨"2", true⟩, ⟨"3", true⟩] := by decide
  have hok : isOk (GetProcesses wNameA 5 NewProcessMonitor) = true := by decide
  exact ⟨hpd, hok,
    claim_C4_state_replacement wNameA [⟨"1", true⟩, ⟨"2", true⟩, ⟨"3", true⟩]
      5 NewProcessMonitor 1 hpd hok⟩

/-- Claim C5 counterexample: two claude processes with EQUAL start times,
pids 9 and 10, are enumerated by the lexically sorted /proc listing as
"10" before "9", and the returned order keeps pid 10 first, so equal start
times are NOT broken by ascending pid as the claim states. -/
theorem claim_C5_counterexample :
    isOk (GetProcesses wTie 5 NewProcessMonitor) = true ∧
    (resultOf wTie 5 NewProcessMonitor).1.map (fun p => (p.PID, p.StartTime)) =
      [(10, 1001), (9, 1001)] := by
  exact ⟨by decide, by decide⟩

/-- Claim C5 (amended): GetProcesses sorts the candidates ascending by
start time only — the returned start times are non-decreasing and the
(pid, start time) pairs are a permutation of the raw candidate list — but
the comparator has no pid tie-break, so candidates with equal start times
stay in directory-enumeration order. -/
theorem claim_C5_sort_by_start_time (w : ProcWorld) (entries : List DirEntry)
    (e : ℚ) (pm : PMState)
    (hpd : w.procDir = some entries)
    (hok : isOk (GetProcesses w e pm) = true) :
    List.Pairwise (fun a b => a.StartTime ≤ b.StartTime) (resultOf w e pm).1 ∧
    ((resultOf w e pm).1.map (fun p => (p.PID, p.StartTime))).Perm
      (rawPairs w entries) := by
  obtain ⟨entries', rawCur, hpd', hfp⟩ := isOk_elim w e pm hok
  rw [hpd] at hpd'
  obtain rfl := Option.some.inj hpd'
  rw [resultOf_eq w entries e pm rawCur hpd hfp]
  have hmap := secondPassAux_map_pid_start pm.prevCPUTimes pm.clkTck
    (if e < 1 / 10 then 1 / 10 else e) (goSortSlice lessStart rawCur.1) []
  constructor
  · have hst : (secondPassAux pm.prevCPUTimes pm.clkTck
        (if e < 1 / 10 then 1 / 10 else e) (goSortSlice lessStart rawCur.1) []).map
          (fun p => p.StartTime) =
        (goSortSlice lessStart rawCur.1).map (fun rp => rp.proc.StartTime) := by
      have h2 := congrArg (List.map Prod.snd) hmap
      simpa [List.map_map, Function.comp] using h2
    have hpw : (goSortSlice lessStart rawCur.1).Pairwise leStart :=
      goSortSlice_sorted rawCur.1
    have h1 : ((goSortSlice lessStart rawCur.1).map
        (fun rp => rp.proc.StartTime)).Pairwise (fun a b => a ≤ b) :=
      List.pairwise_map.mpr hpw
    have h2 : ((secondPassAux pm.prevCPUTimes pm.clkTck
        (if e < 1 / 10 then 1 / 10 else e) (goSortSlice lessStart rawCur.1) []).map
          (fun p => p.StartTime)).Pairwise (fun a b => a ≤ b) := by
      rw [hst]
      exact h1
    exact List.pairwise_map.mp h2
  · rw [hmap]
    simp only [rawPairs, hfp]
    exact (goSortSlice_perm lessStart rawCur.1).map _

/-- Witness for claim C5 (amended): the tie world's output is sorted by
start time and carries the same (pid, start time) pairs as the raw list. -/
theorem claim_C5_sort_by_start_time_witness :
    wTie.procDir = some [⟨"10", true⟩, ⟨"9", true⟩] ∧
    isOk (GetProcesses wTie 5 NewProcessMonitor) = true ∧
    List.Pairwise (fun a b => a.StartTime ≤ b.StartTime)
      (resultOf wTie 5 NewProcessMonitor).1 ∧
    ((resultOf wTie 5 NewProcessMonitor).1.map (fun p => (p.PID, p.StartTime))).Perm
      (rawPairs wTie [⟨"10", true⟩, ⟨"9", true⟩]) := by
  have hpd : wTie.procDir = some [⟨"10", true⟩, ⟨"9", true⟩] := by decide
  have hok : isOk (GetProcesses wTie 5 NewProcessMonitor) = true := by decide
  obtain ⟨h1, h2⟩ := claim_C5_sort_by_start_time wTie [⟨"10", true⟩, ⟨"9", true⟩]
    5 NewProcessMonitor hpd hok
  exact ⟨hpd, hok, h1, h2⟩

/-- Claim C6: in the start-time-ordered output the i-th name is the base
name unchanged on its first occurrence and the base name with the ordinal
suffix (2nd, 3rd, Nth) in parentheses on the Nth occurrence; concretely
the working directories /a/proj, /b/proj, /c/other in ascending start-time
order are named proj, proj (2nd), other, and a fourth proj process
observed after the others is named proj (4th). -/
theorem claim_C6_ordinal_naming :
    (∀ (prev : List (Int × cpuTime)) (ck el : ℚ) (raw : List RawProcess) (i : Nat),
      ((secondPassAux prev ck el raw []).map (fun p => p.Name))[i]? =
        (raw.map (fun rp => rp.proc.Name))[i]?.map (fun b =>
          if countIn ((raw.map (fun rp => rp.proc.Name)).take i) b + 1 > 1 then
            b ++ " (" ++
              getOrdinalSuffix (countIn ((raw.map (fun rp => rp.proc.Name)).take i) b + 1)
              ++ ")"
          else b)) ∧
    getOrdinalSuffix 2 = "2nd" ∧ getOrdinalSuffix 3 = "3rd" ∧
    getOrdinalSuffix 4 = "4th" ∧
    (resultOf wNameA 5 NewProcessMonitor).1.map (fun p => p.WorkingDir) =
      ["/a/proj", "/b/proj", "/c/other"] ∧
    (resultOf wNameA 5 NewProcessMonitor).1.map (fun p => p.Name) =
      ["proj", "proj (2nd)", "other"] ∧
    (resultOf wNameB 5 NewProcessMonitor).1.map (fun p => p.Name) =
      ["proj", "proj (2nd)", "proj (3rd)", "proj (4th)"] := by
  refine ⟨?_, by rfl, by rfl, by rfl, by decide, by decide, by decide⟩
  intro prev ck el raw i
  rw [secondPassAux_map_name]
  have h := assignNamesSpec_getElem (raw.map (fun rp => rp.proc.Name)) [] []
    (fun b => rfl) i
  simpa using h

/-- Claim C7: a process id with no counter pair in the estimator state —
in particular one first observed in this poll, since the previous poll's
replacement left exactly its own observed ids in the map — reports a CPU
percentage of exactly 0; and an id not observed in a successful poll is
absent from the state that poll leaves behind. -/
theorem claim_C7_first_observation_zero :
    (∀ (w : ProcWorld) (e : ℚ) (pm : PMState) (p : ClaudeProcess),
      isOk (GetProcesses w e pm) = true → p ∈ (resultOf w e pm).1 →
      lookupA pm.prevCPUTimes p.PID = none → p.CPUPercent = 0) ∧
    (∀ (w : ProcWorld) (entries : List DirEntry) (e : ℚ) (pm : PMState) (pid : Int),
      w.procDir = some entries → isOk (GetProcesses w e pm) = true →
      pid ∉ observedPids w entries →
      lookupA (resultOf w e pm).2.prevCPUTimes pid = none) := by
  constructor
  · intro w e pm p hok hmem hnone
    obtain ⟨entries, rawCur, hpd, hfp⟩ := isOk_elim w e pm hok
    rw [resultOf_eq w entries e pm rawCur hpd hfp] at hmem
    exact secondPassAux_cpu_zero pm.prevCPUTimes pm.clkTck
      (if e < 1 / 10 then 1 / 10 else e) (goSortSlice lessStart rawCur.1) [] p hmem hnone
  · intro w entries e pm pid hpd hok hnot
    obtain ⟨entries', rawCur, hpd', hfp⟩ := isOk_elim w e pm hok
    rw [hpd] at hpd'
    obtain rfl := Option.some.inj hpd'
    rw [resultOf_eq w entries e pm rawCur hpd hfp]
    simp only [filter_lookupA_self]
    have hiff := firstPassAux_lookup w entries [] [] rawCur.1 rawCur.2 hfp pid
    have hns : ¬ (lookupA rawCur.2 pid).isSome = true := by
      rw [hiff]
      simp [lookupA, hnot]
    simpa [Option.not_isSome_iff_eq_none] using hns

/-- Witness for claim C7: in a fresh poll (empty previous map) the first
returned process has CPU percentage 0, and a pid never observed is absent
from the state the poll leaves. -/
theorem claim_C7_first_observation_zero_witness :
    (isOk (GetProcesses wNameA 5 NewProcessMonitor) = true ∧
      (⟨1, "proj", "/a/proj", 0, 0, 1001⟩ : ClaudeProcess) ∈
        (resultOf wNameA 5 NewProcessMonitor).1 ∧
      lookupA NewProcessMonitor.prevCPUTimes
        (⟨1, "proj", "/a/proj", 0, 0, 1001⟩ : ClaudeProcess).PID = none ∧
      (⟨1, "proj", "/a/proj", 0, 0, 1001⟩ : ClaudeProcess).CPUPercent = 0) ∧
    (wNameA.procDir = some [⟨"1", true⟩, ⟨"2", true⟩, ⟨"3", true⟩] ∧
      (99 : Int) ∉ observedPids wNameA [⟨"1", true⟩, ⟨"2", true⟩, ⟨"3", true⟩] ∧
      lookupA (resultOf wNameA 5 NewProcessMonitor).2.prevCPUTimes 99 = none) := by
  have hok : isOk (GetProcesses wNameA 5 NewProcessMonitor) = true := by decide
  have hmem : (⟨1, "proj", "/a/proj", 0, 0, 1001⟩ : ClaudeProcess) ∈
      (resultOf wNameA 5 NewProcessMonitor).1 := by decide
  have hnone : lookupA NewProcessMonitor.prevCPUTimes
      (⟨1, "proj", "/a/proj", 0, 0, 1001⟩ : ClaudeProcess).PID = none := by decide
  have hpd : wNameA.procDir = some [⟨"1", true⟩, ⟨"2", true⟩, ⟨"3", true⟩] := by decide
  have hnot : (99 : Int) ∉ observedPids wNameA [⟨"1", true⟩, ⟨"2", true⟩, ⟨"3", true⟩] := by
    decide
  exact ⟨⟨hok, hmem, hnone,
      claim_C7_first_observation_zero.1 wNameA 5 NewProcessMonitor _ hok hmem hnone⟩,
    ⟨hpd, hnot,
      claim_C7_first_observation_zero.2 wNameA [⟨"1", true⟩, ⟨"2", true⟩, ⟨"3", true⟩]
        5 NewProcessMonitor 99 hpd hok hnot⟩⟩

end ClaudeMonitor
